import Mathlib

/-
Shallow embedding of src/QueryEngine/TableFunctions/TableFunctionExecutionContext.cpp
(OmniSciDB table function execution context).

Modelling conventions:
- size_t arithmetic is Nat with an explicit reduction modulo 2 ^ 64 where the
  source multiplies (get_output_row_count); int64 values are Int.
- std::optional of size_t is modelled as a record of its raw storage together
  with the engaged flag; the C++ dereference operator has no presence
  precondition check at runtime, so the model of a dereference reads the raw
  storage regardless of the flag (a disengaged read is undefined behaviour in
  C++; the model makes the read of residual storage explicit).
- CHECK macro failures are fatal aborts; they are modelled as errors in the
  same Except channel, with the names the design documentation gives them.
- The compiled table function (CPU) is an external collaborator; it is
  modelled by the observable effect of one call: its return code and the
  value left in the output row count out parameter (initialized to -1 by the
  caller, so a function that never writes leaves -1).
- The GPU kernel is modelled by the value it leaves in the device output row
  count slot: none when the kernel never writes the slot (the slot then still
  holds the -1 sentinel the host wrote before launch). The model covers the
  HAVE_CUDA build and assumes cuLaunchKernel returns success.
- Output storage allocation and kernel/function launch are recorded as an
  event trace so that statements of the form "fails before any output
  allocation / before any launch" are expressible.
-/

namespace TableFunctionExec

/-- The size of the 64 bit machine word value space (size_t wraps modulo this). -/
def USIZE : Nat := 2 ^ 64

/-- Target device of one execution, mirroring ExecutorDeviceType. -/
inductive ExecutorDeviceType
  | CPU
  | GPU
deriving DecidableEq

/-- Model of std::optional of size_t: raw storage plus the engaged flag.
The C++ dereference reads the storage without consulting the flag. -/
structure CppOptional where
  storage : Nat
  engaged : Bool
deriving DecidableEq

/-- The type class of a literal, from the SQLTypeInfo of an Analyzer::Constant:
ti.is_fp, ti.is_integer, or anything else (e.g. a text literal). -/
inductive SQLTypeClass
  | fp
  | integer
  | otherClass
deriving DecidableEq

/-- An Analyzer::Constant input: type class, bit width from get_bit_width, and
the bit pattern of the datum field of that width. -/
structure Constant where
  typeClass : SQLTypeClass
  bitWidth : Nat
  value : Nat
deriving DecidableEq

/-- One input expression of the execution unit. The source walks
exe_unit.input_exprs and dynamic_casts each pointer: to Analyzer::ColumnVar,
else to Analyzer::Constant; a pointer matching neither cast falls through the
if / else-if chain with no action, which the third constructor records. -/
inductive InputExpr
  | columnVar (colId : Nat)
  | constant (c : Constant)
  | other
deriving DecidableEq

/-- The TableFunctionExecutionUnit fields this translation needs: the ordered
input expressions, the number of output target expressions, and the optional
output buffer multiplier. -/
structure TableFunctionExecutionUnit where
  input_exprs : List InputExpr
  target_exprs : Nat
  output_buffer_multiplier : CppOptional
deriving DecidableEq

/-- Failure taxonomy of one invocation, with the names of the design
documentation. The last two model fatal CHECK aborts (defensive invariants)
and the UNREACHABLE branches of the literal width switches. -/
inductive TfError
  | UnsupportedOutputPolicy
  | UnsupportedLiteralType
  | InconsistentInputCardinality
  | NoColumnInputs
  | TableFunctionExecutionError (code : Int)
  | OutputCardinalityNotSet
  | InternalBufferCountMismatch
  | UnreachableLiteralWidth
deriving DecidableEq

/-- Little endian byte decomposition of a bit pattern: the n low bytes. -/
def leBytes : Nat → Nat → List Nat
  | 0, _ => []
  | n + 1, v => v % 256 :: leBytes n (v / 256)

/-- Reassemble a bit pattern from little endian bytes. -/
def fromLeBytes : List Nat → Nat
  | [] => 0
  | b :: bs => b + 256 * fromLeBytes bs

/-- create_literal_buffer: allocate an 8 byte slot and memcpy exactly sizeT
bytes of the literal into its low end. On the CPU path the slot comes from
make_unique.char[].(8), which value initializes to zero; on the GPU path the
slot is a fresh device allocation whose prior contents gpuSlot are not
initialized, and copyToDevice writes only the first sizeT bytes. -/
def create_literal_buffer (literal : Nat) (sizeT : Nat)
    (device_type : ExecutorDeviceType) (gpuSlot : List Nat) : List Nat :=
  match device_type with
  | .CPU => leBytes sizeT literal ++ (List.replicate 8 0).drop sizeT
  | .GPU => leBytes sizeT literal ++ gpuSlot.drop sizeT

/-- get_output_row_count: the source tests if (*exe_unit.output_buffer_multiplier),
i.e. it dereferences the optional (reading its storage, with no presence
check) and branches on the truthiness of the value; a nonzero value yields
multiplier * input_element_count in size_t arithmetic, and zero raises the
unsupported output policy error. -/
def get_output_row_count (exe_unit : TableFunctionExecutionUnit)
    (input_element_count : Nat) : Except TfError Nat :=
  if exe_unit.output_buffer_multiplier.storage ≠ 0 then
    .ok (exe_unit.output_buffer_multiplier.storage * input_element_count % USIZE)
  else
    .error .UnsupportedOutputPolicy

/-- A marshaled input buffer: a fetched column chunk (the pointer is kept
abstract, only the fetched element count matters to this core) or a packed
literal slot of 8 bytes. -/
inductive Buf
  | column (elemCount : Nat)
  | literal (bytes : List Nat)
deriving DecidableEq

/-- The literal dispatch of the constant branch of the marshaling loop:
floating point widths 32 and 64 and integer widths 8, 16, 32 and 64 call
create_literal_buffer with the matching sizeof; any other width of those two
classes hits an UNREACHABLE switch default; any other type class throws the
unsupported literal error. -/
def packConstant (device_type : ExecutorDeviceType) (gpuSlot : List Nat)
    (c : Constant) : Except TfError (List Nat) :=
  match c.typeClass with
  | .fp =>
    match c.bitWidth with
    | 32 => .ok (create_literal_buffer c.value 4 device_type gpuSlot)
    | 64 => .ok (create_literal_buffer c.value 8 device_type gpuSlot)
    | _ => .error .UnreachableLiteralWidth
  | .integer =>
    match c.bitWidth with
    | 8 => .ok (create_literal_buffer c.value 1 device_type gpuSlot)
    | 16 => .ok (create_literal_buffer c.value 2 device_type gpuSlot)
    | 32 => .ok (create_literal_buffer c.value 4 device_type gpuSlot)
    | 64 => .ok (create_literal_buffer c.value 8 device_type gpuSlot)
    | _ => .error .UnreachableLiteralWidth
  | .otherClass => .error .UnsupportedLiteralType

/-- One iteration of the marshaling loop over the input expressions. The
state is the col_buf_ptrs vector built so far and the running element_count
(a ssize_t initialized to -1). A ColumnVar fetches its fragment: the first
one establishes element_count, later ones must match it exactly (CHECK_EQ).
A Constant is packed by the literal dispatch. An expression matching neither
dynamic_cast leaves the state untouched. The fetch collaborator abstracts
ColumnFetcher::getOneColumnFragment, returning the element count of the first
fragment of the referenced column. -/
def marshalStep (fetch : Nat → Nat) (device_type : ExecutorDeviceType)
    (gpuSlot : List Nat) (st : List Buf × Int) (e : InputExpr) :
    Except TfError (List Buf × Int) :=
  match e with
  | .columnVar colId =>
    let buf_elem_count := fetch colId
    if st.2 < 0 then
      .ok (st.1 ++ [.column buf_elem_count], (buf_elem_count : Int))
    else if (buf_elem_count : Int) = st.2 then
      .ok (st.1 ++ [.column buf_elem_count], st.2)
    else
      .error .InconsistentInputCardinality
  | .constant c =>
    match packConstant device_type gpuSlot c with
    | .ok bytes => .ok (st.1 ++ [.literal bytes], st.2)
    | .error err => .error err
  | .other => .ok st

/-- The marshaling loop: fold marshalStep over the input expressions,
aborting at the first failure. -/
def marshalLoop (fetch : Nat → Nat) (device_type : ExecutorDeviceType)
    (gpuSlot : List Nat) (st : List Buf × Int) :
    List InputExpr → Except TfError (List Buf × Int)
  | [] => .ok st
  | e :: rest =>
    match marshalStep fetch device_type gpuSlot st e with
    | .ok st' => marshalLoop fetch device_type gpuSlot st' rest
    | .error err => .error err

/-- Observable allocation and launch events of one invocation, enough to
express "fails before any output storage allocation / any launch". -/
inductive Event
  | allocOutput (rows : Nat)
  | launch (device : ExecutorDeviceType)
deriving DecidableEq

/-- The returned result set: the authoritative entry count set by
updateStorageEntryCount, and the row capacity its storage was allocated
with. -/
structure ResultSet where
  entryCount : Nat
  allocatedRows : Nat
deriving DecidableEq

/-- Observable effect of one call of the compiled CPU table function: the
int32 return code, and the value left in the int64 output row count out
parameter (the caller initializes it to -1, so a function that never writes
it leaves -1). -/
structure CompiledFn where
  retCode : Int
  outRowCount : Int
deriving DecidableEq

/-- launchCpuCode: build the output layout, size it with get_output_row_count,
allocate host output storage, call the compiled function, check the return
code, check that the output row count was set to a nonnegative value, and
update the result set entry count to exactly that value. -/
def launchCpuCode (exe_unit : TableFunctionExecutionUnit) (elem_count : Nat)
    (fn : CompiledFn) : List Event × Except TfError ResultSet :=
  match get_output_row_count exe_unit elem_count with
  | .error err => ([], .error err)
  | .ok allocated_output_row_count =>
    let events := [Event.allocOutput allocated_output_row_count,
                   Event.launch .CPU]
    if fn.retCode ≠ 0 then
      (events, .error (.TableFunctionExecutionError fn.retCode))
    else if fn.outRowCount < 0 then
      (events, .error .OutputCardinalityNotSet)
    else
      (events, .ok ⟨fn.outRowCount.toNat, allocated_output_row_count⟩)

/-- launchGpuCode (HAVE_CUDA build): copy inputs to the device, size the
output with get_output_row_count, allocate device output storage, write the
-1 sentinel to the device output row count slot, launch the kernel, read the
slot back; a value still negative falls back to the allocated row count, and
the result set entry count is updated to the resolved value. kernelOut is
the value the kernel wrote to the slot, or none when it never wrote it. -/
def launchGpuCode (exe_unit : TableFunctionExecutionUnit) (elem_count : Nat)
    (kernelOut : Option Int) : List Event × Except TfError ResultSet :=
  match get_output_row_count exe_unit elem_count with
  | .error err => ([], .error err)
  | .ok allocated_output_row_count =>
    let events := [Event.allocOutput allocated_output_row_count,
                   Event.launch .GPU]
    let new_output_row_count : Int := kernelOut.getD (-1)
    let resolved : Int :=
      if new_output_row_count < 0 then (allocated_output_row_count : Int)
      else new_output_row_count
    (events, .ok ⟨resolved.toNat, allocated_output_row_count⟩)

/-- TableFunctionExecutionContext::execute: marshal the inputs (element_count
starts at -1), CHECK_EQ that the marshaled buffer count equals the input
expression count, CHECK_GE that an element count was established, then
dispatch to the CPU or GPU launcher. -/
def execute (exe_unit : TableFunctionExecutionUnit) (fetch : Nat → Nat)
    (device_type : ExecutorDeviceType) (fn : CompiledFn)
    (kernelOut : Option Int) (gpuSlot : List Nat) :
    List Event × Except TfError ResultSet :=
  match marshalLoop fetch device_type gpuSlot ([], -1) exe_unit.input_exprs with
  | .error err => ([], .error err)
  | .ok (col_buf_ptrs, element_count) =>
    if col_buf_ptrs.length = exe_unit.input_exprs.length then
      if element_count < 0 then
        ([], .error .NoColumnInputs)
      else
        match device_type with
        | .CPU => launchCpuCode exe_unit element_count.toNat fn
        | .GPU => launchGpuCode exe_unit element_count.toNat kernelOut
    else
      ([], .error .InternalBufferCountMismatch)

/-- The length of the little endian decomposition is the requested width. -/
theorem leBytes_length (n v : Nat) : (leBytes n v).length = n := by
  induction n generalizing v with
  | zero => rfl
  | succ n ih => simp [leBytes, ih]

/-- Reassembling the n low bytes of a pattern below 256 ^ n gives it back. -/
theorem fromLeBytes_leBytes (n v : Nat) (hv : v < 256 ^ n) :
    fromLeBytes (leBytes n v) = v := by
  induction n generalizing v with
  | zero =>
    interval_cases v
    rfl
  | succ n ih =>
    have hdiv : v / 256 < 256 ^ n := by
      rw [Nat.div_lt_iff_lt_mul (by norm_num)]
      calc v < 256 ^ (n + 1) := hv
        _ = 256 ^ n * 256 := by ring
    simp only [leBytes, fromLeBytes, ih (v / 256) hdiv]
    omega

/-- Taking the width of the first summand of an append returns it. -/
theorem take_length_append (l₁ l₂ : List Nat) (n : Nat) (h : l₁.length = n) :
    (l₁ ++ l₂).take n = l₁ := by subst h; simp

/-- Dropping the width of the first summand of an append returns the rest. -/
theorem drop_length_append (l₁ l₂ : List Nat) (n : Nat) (h : l₁.length = n) :
    (l₁ ++ l₂).drop n = l₂ := by subst h; simp

/-- Claim C3: for every supported literal width (integer 8, 16, 32 or 64
bits, floating point 32 or 64 bits, i.e. sizeof(T) of 1, 2, 4 or 8 bytes)
and every bit pattern of that width, packing the literal into its 8 byte
slot and reading back sizeof(T) bytes from the low end of the slot
reproduces the original bit pattern exactly; the slot is 8 bytes, and the
bytes past sizeof(T) are independent of the literal (exactly sizeof(T)
bytes are written, with no sign or zero extension of narrower widths), on
both the host and the device path. -/
theorem c3_literal_pack_roundtrip (device_type : ExecutorDeviceType)
    (gpuSlot : List Nat) (v sizeT : Nat)
    (hw : sizeT = 1 ∨ sizeT = 2 ∨ sizeT = 4 ∨ sizeT = 8)
    (hv : v < 256 ^ sizeT) (hslot : gpuSlot.length = 8) :
    fromLeBytes ((create_literal_buffer v sizeT device_type gpuSlot).take sizeT) = v ∧
    (create_literal_buffer v sizeT device_type gpuSlot).length = 8 ∧
    (create_literal_buffer v sizeT device_type gpuSlot).drop sizeT =
      (create_literal_buffer 0 sizeT device_type gpuSlot).drop sizeT := by
  have h8 : sizeT ≤ 8 := by rcases hw with h | h | h | h <;> omega
  have hlen := leBytes_length sizeT v
  have hlen0 := leBytes_length sizeT 0
  cases device_type with
  | CPU =>
    refine ⟨?_, ?_, ?_⟩
    · rw [create_literal_buffer, take_length_append _ _ _ hlen,
        fromLeBytes_leBytes sizeT v hv]
    · simp [create_literal_buffer, hlen, h8]
    · rw [create_literal_buffer, create_literal_buffer,
        drop_length_append _ _ _ hlen, drop_length_append _ _ _ hlen0]
  | GPU =>
    refine ⟨?_, ?_, ?_⟩
    · rw [create_literal_buffer, take_length_append _ _ _ hlen,
        fromLeBytes_leBytes sizeT v hv]
    · simp [create_literal_buffer, hlen, hslot, h8]
    · rw [create_literal_buffer, create_literal_buffer,
        drop_length_append _ _ _ hlen, drop_length_append _ _ _ hlen0]

/-- Witness for C3: the 16 bit integer pattern 300 packed on the device path
into a slot whose uninitialized prior contents are all 9. -/
theorem c3_literal_pack_roundtrip_witness :
    fromLeBytes ((create_literal_buffer 300 2 .GPU
        [9, 9, 9, 9, 9, 9, 9, 9]).take 2) = 300 ∧
    (create_literal_buffer 300 2 .GPU [9, 9, 9, 9, 9, 9, 9, 9]).length = 8 ∧
    (create_literal_buffer 300 2 .GPU [9, 9, 9, 9, 9, 9, 9, 9]).drop 2 =
      (create_literal_buffer 0 2 .GPU [9, 9, 9, 9, 9, 9, 9, 9]).drop 2 :=
  c3_literal_pack_roundtrip .GPU [9, 9, 9, 9, 9, 9, 9, 9] 300 2
    (by norm_num) (by norm_num) (by norm_num)

/-- Whether an input expression is a column reference (the first
dynamic_cast of the marshaling loop succeeds on it). -/
def isColumnRef : InputExpr → Bool
  | .columnVar _ => true
  | _ => false

/-- Whether an input expression lies inside the data model of the design
documentation: a column reference, or a constant whose type tag is one of
integer width 8, 16, 32 or 64, or floating point width 32 or 64. -/
def isSpecInput : InputExpr → Bool
  | .columnVar _ => true
  | .constant c =>
    match c.typeClass with
    | .fp => c.bitWidth == 32 || c.bitWidth == 64
    | .integer =>
      c.bitWidth == 8 || c.bitWidth == 16 || c.bitWidth == 32 ||
        c.bitWidth == 64
    | .otherClass => false
  | .other => false

/-- Whether one iteration of the marshaling loop pushes a buffer for the
expression: both successful dynamic_casts push exactly one pointer, an
expression matching neither pushes none. -/
def appendsBuf : InputExpr → Bool
  | .other => false
  | _ => true

/-- The literal dispatch cannot fail on a constant inside the documented
data model. -/
theorem packConstant_ok_of_spec (device_type : ExecutorDeviceType)
    (gpuSlot : List Nat) (c : Constant)
    (h : isSpecInput (.constant c) = true) :
    ∃ bytes, packConstant device_type gpuSlot c = .ok bytes := by
  rcases c with ⟨tc, bw, v⟩
  cases tc with
  | fp =>
    simp only [isSpecInput, Bool.or_eq_true, beq_iff_eq] at h
    rcases h with h | h <;> subst h <;> exact ⟨_, rfl⟩
  | integer =>
    simp only [isSpecInput, Bool.or_eq_true, beq_iff_eq] at h
    rcases h with ((h | h) | h) | h <;> subst h <;> exact ⟨_, rfl⟩
  | otherClass => simp [isSpecInput] at h

/-- Once the shared element count is established (nonnegative), the rest of
the marshaling loop never changes it. -/
theorem marshal_ec_fixed (fetch : Nat → Nat) (device_type : ExecutorDeviceType)
    (gpuSlot : List Nat) :
    ∀ (exprs : List InputExpr) (st : List Buf × Int) (bufs : List Buf)
      (ec : Int),
      marshalLoop fetch device_type gpuSlot st exprs = .ok (bufs, ec) →
      0 ≤ st.2 → ec = st.2 := by
  intro exprs
  induction exprs with
  | nil =>
    intro st bufs ec h hst
    rcases st with ⟨b0, e0⟩
    simp only [marshalLoop, Except.ok.injEq, Prod.mk.injEq] at h
    omega
  | cons e rest ih =>
    intro st bufs ec h hst
    cases e with
    | columnVar colId =>
      simp only [marshalLoop, marshalStep] at h
      rw [if_neg (by omega)] at h
      by_cases heq : ((fetch colId : Int) = st.2)
      · rw [if_pos heq] at h
        exact ih (st.1 ++ [Buf.column (fetch colId)], st.2) bufs ec h hst
      · rw [if_neg heq] at h
        exact absurd h (by simp)
    | constant c =>
      simp only [marshalLoop, marshalStep] at h
      rcases hp : packConstant device_type gpuSlot c with err | bytes <;>
        rw [hp] at h
      · exact absurd h (by simp)
      · exact ih (st.1 ++ [Buf.literal bytes], st.2) bufs ec h hst
    | other =>
      simp only [marshalLoop, marshalStep] at h
      exact ih st bufs ec h hst

/-- If the marshaling loop completes, every column reference among the
expressions it processed was fetched with exactly the final shared element
count. -/
theorem marshal_col_count (fetch : Nat → Nat)
    (device_type : ExecutorDeviceType) (gpuSlot : List Nat) :
    ∀ (exprs : List InputExpr) (st : List Buf × Int) (bufs : List Buf)
      (ec : Int),
      marshalLoop fetch device_type gpuSlot st exprs = .ok (bufs, ec) →
      ∀ colId, InputExpr.columnVar colId ∈ exprs → (fetch colId : Int) = ec := by
  intro exprs
  induction exprs with
  | nil =>
    intro st bufs ec h colId hmem
    exact absurd hmem (by simp)
  | cons e rest ih =>
    intro st bufs ec h colId hmem
    cases e with
    | columnVar colId' =>
      simp only [marshalLoop, marshalStep] at h
      by_cases hneg : st.2 < 0
      · rw [if_pos hneg] at h
        rcases List.mem_cons.mp hmem with hme | hmt
        · have hcol : colId' = colId := by
            injection hme with h₁
            exact h₁.symm
          subst hcol
          have := marshal_ec_fixed fetch device_type gpuSlot rest
            (st.1 ++ [Buf.column (fetch colId')], (fetch colId' : Int)) bufs ec
            h (by positivity)
          omega
        · exact ih (st.1 ++ [Buf.column (fetch colId')], (fetch colId' : Int))
            bufs ec h colId hmt
      · rw [if_neg hneg] at h
        by_cases heq : ((fetch colId' : Int) = st.2)
        · rw [if_pos heq] at h
          have hfix := marshal_ec_fixed fetch device_type gpuSlot rest
            (st.1 ++ [Buf.column (fetch colId')], st.2) bufs ec h (by omega)
          rcases List.mem_cons.mp hmem with hme | hmt
          · have hcol : colId' = colId := by
              injection hme with h₁
              exact h₁.symm
            subst hcol
            omega
          · exact ih (st.1 ++ [Buf.column (fetch colId')], st.2) bufs ec h
              colId hmt
        · rw [if_neg heq] at h
          exact absurd h (by simp)
    | constant c =>
      simp only [marshalLoop, marshalStep] at h
      rcases hp : packConstant device_type gpuSlot c with err | bytes <;>
        rw [hp] at h
      · exact absurd h (by simp)
      · rcases List.mem_cons.mp hmem with hme | hmt
        · exact absurd hme (by simp)
        · exact ih (st.1 ++ [Buf.literal bytes], st.2) bufs ec h colId hmt
    | other =>
      simp only [marshalLoop, marshalStep] at h
      rcases List.mem_cons.mp hmem with hme | hmt
      · exact absurd hme (by simp)
      · exact ih st bufs ec h colId hmt

/-- On inputs inside the documented data model, the marshaling loop either
completes or aborts with the inconsistent input cardinality check; no other
failure is reachable. -/
theorem marshal_spec_shape (fetch : Nat → Nat)
    (device_type : ExecutorDeviceType) (gpuSlot : List Nat) :
    ∀ (exprs : List InputExpr) (st : List Buf × Int),
      (∀ e ∈ exprs, isSpecInput e = true) →
      (∃ r, marshalLoop fetch device_type gpuSlot st exprs = .ok r) ∨
        marshalLoop fetch device_type gpuSlot st exprs =
          .error .InconsistentInputCardinality := by
  intro exprs
  induction exprs with
  | nil =>
    intro st _
    exact Or.inl ⟨st, rfl⟩
  | cons e rest ih =>
    intro st hspec
    have hrest : ∀ e ∈ rest, isSpecInput e = true := by
      intro x hx
      exact hspec x (List.mem_cons_of_mem _ hx)
    cases e with
    | columnVar colId =>
      by_cases hneg : st.2 < 0
      · have hred : marshalLoop fetch device_type gpuSlot st
            (InputExpr.columnVar colId :: rest) =
            marshalLoop fetch device_type gpuSlot
              (st.1 ++ [Buf.column (fetch colId)], (fetch colId : Int)) rest := by
          simp only [marshalLoop, marshalStep]
          rw [if_pos hneg]
        rw [hred]
        exact ih _ hrest
      · by_cases heq : ((fetch colId : Int) = st.2)
        · have hred : marshalLoop fetch device_type gpuSlot st
              (InputExpr.columnVar colId :: rest) =
              marshalLoop fetch device_type gpuSlot
                (st.1 ++ [Buf.column (fetch colId)], st.2) rest := by
            simp only [marshalLoop, marshalStep]
            rw [if_neg hneg, if_pos heq]
          rw [hred]
          exact ih _ hrest
        · refine Or.inr ?_
          simp only [marshalLoop, marshalStep]
          rw [if_neg hneg, if_neg heq]
    | constant c =>
      obtain ⟨bytes, hp⟩ := packConstant_ok_of_spec device_type gpuSlot c
        (hspec _ (List.mem_cons_self _ _))
      have hred : marshalLoop fetch device_type gpuSlot st
          (InputExpr.constant c :: rest) =
          marshalLoop fetch device_type gpuSlot
            (st.1 ++ [Buf.literal bytes], st.2) rest := by
        simp only [marshalLoop, marshalStep]
        rw [hp]
      rw [hred]
      exact ih _ hrest
    | other =>
      exact absurd (hspec _ (List.mem_cons_self _ _)) (by simp [isSpecInput])

/-- With no column reference among documented-model inputs, the marshaling
loop completes, leaves the running element count untouched, and pushes one
buffer per expression. -/
theorem marshal_no_col (fetch : Nat → Nat)
    (device_type : ExecutorDeviceType) (gpuSlot : List Nat) :
    ∀ (exprs : List InputExpr) (st : List Buf × Int),
      (∀ e ∈ exprs, isSpecInput e = true) →
      (∀ e ∈ exprs, isColumnRef e = false) →
      ∃ bufs, marshalLoop fetch device_type gpuSlot st exprs =
          .ok (st.1 ++ bufs, st.2) ∧ bufs.length = exprs.length := by
  intro exprs
  induction exprs with
  | nil =>
    intro st _ _
    exact ⟨[], by simp [marshalLoop], rfl⟩
  | cons e rest ih =>
    intro st hspec hnocol
    have hrest : ∀ e ∈ rest, isSpecInput e = true := by
      intro x hx
      exact hspec x (List.mem_cons_of_mem _ hx)
    have hrestc : ∀ e ∈ rest, isColumnRef e = false := by
      intro x hx
      exact hnocol x (List.mem_cons_of_mem _ hx)
    cases e with
    | columnVar colId =>
      exact absurd (hnocol _ (List.mem_cons_self _ _)) (by simp [isColumnRef])
    | constant c =>
      obtain ⟨bytes, hp⟩ := packConstant_ok_of_spec device_type gpuSlot c
        (hspec _ (List.mem_cons_self _ _))
      obtain ⟨bufs, hok, hlen⟩ :=
        ih (st.1 ++ [Buf.literal bytes], st.2) hrest hrestc
      refine ⟨Buf.literal bytes :: bufs, ?_, by simp [hlen]⟩
      have hred : marshalLoop fetch device_type gpuSlot st
          (InputExpr.constant c :: rest) =
          marshalLoop fetch device_type gpuSlot
            (st.1 ++ [Buf.literal bytes], st.2) rest := by
        simp only [marshalLoop, marshalStep]
        rw [hp]
      rw [hred, hok]
      simp
    | other =>
      exact absurd (hspec _ (List.mem_cons_self _ _)) (by simp [isSpecInput])

/-- If the marshaling loop completes, the number of buffers it pushed is the
number of processed expressions on which a dynamic_cast succeeded. -/
theorem marshal_length (fetch : Nat → Nat)
    (device_type : ExecutorDeviceType) (gpuSlot : List Nat) :
    ∀ (exprs : List InputExpr) (st : List Buf × Int) (bufs : List Buf)
      (ec : Int),
      marshalLoop fetch device_type gpuSlot st exprs = .ok (bufs, ec) →
      bufs.length = st.1.length + exprs.countP (fun e => appendsBuf e) := by
  intro exprs
  induction exprs with
  | nil =>
    intro st bufs ec h
    rcases st with ⟨b0, e0⟩
    simp only [marshalLoop, Except.ok.injEq, Prod.mk.injEq] at h
    simp [← h.1]
  | cons e rest ih =>
    intro st bufs ec h
    cases e with
    | columnVar colId =>
      simp only [marshalLoop, marshalStep] at h
      by_cases hneg : st.2 < 0
      · rw [if_pos hneg] at h
        have := ih (st.1 ++ [Buf.column (fetch colId)], (fetch colId : Int))
          bufs ec h
        simp only [List.length_append, List.length_cons,
          List.length_nil] at this
        simp [this, List.countP_cons, appendsBuf]
        omega
      · rw [if_neg hneg] at h
        by_cases heq : ((fetch colId : Int) = st.2)
        · rw [if_pos heq] at h
          have := ih (st.1 ++ [Buf.column (fetch colId)], st.2) bufs ec h
          simp only [List.length_append, List.length_cons,
            List.length_nil] at this
          simp [this, List.countP_cons, appendsBuf]
          omega
        · rw [if_neg heq] at h
          exact absurd h (by simp)
    | constant c =>
      simp only [marshalLoop, marshalStep] at h
      rcases hp : packConstant device_type gpuSlot c with err | bytes <;>
        rw [hp] at h
      · exact absurd h (by simp)
      · have := ih (st.1 ++ [Buf.literal bytes], st.2) bufs ec h
        simp only [List.length_append, List.length_cons,
          List.length_nil] at this
        simp [this, List.countP_cons, appendsBuf]
        omega
    | other =>
      simp only [marshalLoop, marshalStep] at h
      have := ih st bufs ec h
      simp [this, List.countP_cons, appendsBuf]

/-- An expression matching neither dynamic_cast makes the pushed-buffer
count fall strictly short of the expression count. -/
theorem countP_lt_of_other :
    ∀ (exprs : List InputExpr), InputExpr.other ∈ exprs →
      exprs.countP (fun e => appendsBuf e) < exprs.length := by
  intro exprs
  induction exprs with
  | nil =>
    intro hmem
    exact absurd hmem (by simp)
  | cons e rest ih =>
    intro hmem
    have hle := List.countP_le_length (l := rest) (p := fun e => appendsBuf e)
    rcases List.mem_cons.mp hmem with hme | hmt
    · subst hme
      have h0 : List.countP (fun e => appendsBuf e) (InputExpr.other :: rest) =
          List.countP (fun e => appendsBuf e) rest := by
        simp [List.countP_cons, appendsBuf]
      rw [h0]
      simp only [List.length_cons]
      omega
    · have := ih hmt
      simp only [List.countP_cons, List.length_cons]
      split <;> omega

/-- Claim C1: for every valid execution (row multiplier present, and, per
the code guard, nonzero; product within the size_t range), the first event
of both the CPU and the GPU launch is the allocation of exactly
multiplier * input_element_count output rows, and that product equals the
floor of the rational product (truncation to an integer is the identity
here, the multiplier being integral). -/
theorem c1_allocated_row_count (u : TableFunctionExecutionUnit) (ec : Nat)
    (fn : CompiledFn) (kernelOut : Option Int)
    (_hengaged : u.output_buffer_multiplier.engaged = true)
    (hnonzero : u.output_buffer_multiplier.storage ≠ 0)
    (hfit : u.output_buffer_multiplier.storage * ec < USIZE) :
    (launchCpuCode u ec fn).1.head? =
      some (Event.allocOutput (u.output_buffer_multiplier.storage * ec)) ∧
    (launchGpuCode u ec kernelOut).1.head? =
      some (Event.allocOutput (u.output_buffer_multiplier.storage * ec)) ∧
    Int.floor ((u.output_buffer_multiplier.storage : ℚ) * (ec : ℚ)) =
      ((u.output_buffer_multiplier.storage * ec : Nat) : Int) := by
  have hmod : u.output_buffer_multiplier.storage * ec % USIZE =
      u.output_buffer_multiplier.storage * ec := Nat.mod_eq_of_lt hfit
  refine ⟨?_, ?_, ?_⟩
  · simp only [launchCpuCode, get_output_row_count, hnonzero, hmod,
      ne_eq, not_false_eq_true, if_true]
    split
    · rfl
    · split <;> rfl
  · simp [launchGpuCode, get_output_row_count, hnonzero, hmod]
  · rw [← Nat.cast_mul]
    exact_mod_cast Int.floor_natCast _

/-- Witness for C1: multiplier 2 over 4 input rows allocates 8 rows on both
paths, and 8 is the floor of the rational product 2 * 4. -/
theorem c1_allocated_row_count_witness :
    (launchCpuCode ⟨[InputExpr.columnVar 0], 1, ⟨2, true⟩⟩ 4 ⟨0, 4⟩).1.head? =
      some (Event.allocOutput 8) ∧
    (launchGpuCode ⟨[InputExpr.columnVar 0], 1, ⟨2, true⟩⟩ 4 none).1.head? =
      some (Event.allocOutput 8) ∧
    Int.floor (((2 : Nat) : ℚ) * ((4 : Nat) : ℚ)) = ((8 : Nat) : Int) := by
  have h := c1_allocated_row_count ⟨[InputExpr.columnVar 0], 1, ⟨2, true⟩⟩ 4
    ⟨0, 4⟩ none rfl (by norm_num) (by norm_num [USIZE])
  exact ⟨h.1, h.2.1, h.2.2⟩

/-- Claim C9: the guard of get_output_row_count tests the truthiness of the
dereferenced multiplier value, not the presence of the optional: a declared
multiplier equal to zero is rejected with the unsupported output policy
error rather than allocating zero rows, and the outcome never depends on
the engaged flag (the dereference reads the storage without a presence
test). -/
theorem c9_multiplier_guard_tests_value_not_presence
    (inputs : List InputExpr) (tc ec : Nat) :
    get_output_row_count ⟨inputs, tc, ⟨0, true⟩⟩ ec =
      .error .UnsupportedOutputPolicy ∧
    ∀ (s : Nat) (b b' : Bool),
      get_output_row_count ⟨inputs, tc, ⟨s, b⟩⟩ ec =
        get_output_row_count ⟨inputs, tc, ⟨s, b'⟩⟩ ec := by
  exact ⟨by simp [get_output_row_count], fun s b b' => rfl⟩

/-- Claim C5 is contradicted by the code: get_output_row_count dereferences
the optional multiplier with no presence check (undefined behaviour in C++
when the optional is disengaged; the dereference is modelled as reading the
residual storage). With a disengaged multiplier whose residual storage
reads 3 and 4 input rows, the sizing computation returns 12 instead of
raising the unsupported output policy error, and the CPU launch then
allocates 12 output rows and runs; the claim says an absent multiplier
always fails and never attempts allocation. -/
theorem c5_absent_multiplier_allocates_from_residual_storage :
    get_output_row_count ⟨[InputExpr.columnVar 0], 1, ⟨3, false⟩⟩ 4 =
      .ok 12 ∧
    launchCpuCode ⟨[InputExpr.columnVar 0], 1, ⟨3, false⟩⟩ 4 ⟨0, 4⟩ =
      ([Event.allocOutput 12, Event.launch .CPU], .ok ⟨4, 12⟩) := by
  constructor
  · simp [get_output_row_count, USIZE]
  · simp [launchCpuCode, get_output_row_count, USIZE]

/-- Claim C6: on the GPU path, when the value read back from the device
output row count slot is still negative (the kernel never set it, so the
slot still holds the -1 sentinel), the invocation succeeds and the result
entry count silently equals the allocated row count, whereas the CPU path
fails with the output cardinality error for a function that returns success
without setting the count. -/
theorem c6_gpu_unset_count_falls_back (u : TableFunctionExecutionUnit)
    (ec : Nat)
    (hnonzero : u.output_buffer_multiplier.storage ≠ 0) :
    (launchGpuCode u ec none).2 =
      .ok ⟨u.output_buffer_multiplier.storage * ec % USIZE,
           u.output_buffer_multiplier.storage * ec % USIZE⟩ ∧
    (launchCpuCode u ec ⟨0, -1⟩).2 = .error .OutputCardinalityNotSet := by
  constructor
  · simp [launchGpuCode, get_output_row_count, hnonzero]
    norm_cast
  · simp [launchCpuCode, get_output_row_count, hnonzero]

/-- Witness for C6: multiplier 2 over 4 rows; the GPU invocation with an
unset device slot returns 8 of 8 rows, the CPU one fails. -/
theorem c6_gpu_unset_count_falls_back_witness :
    (launchGpuCode ⟨[InputExpr.columnVar 0], 1, ⟨2, true⟩⟩ 4 none).2 =
      .ok ⟨8, 8⟩ ∧
    (launchCpuCode ⟨[InputExpr.columnVar 0], 1, ⟨2, true⟩⟩ 4 ⟨0, -1⟩).2 =
      .error .OutputCardinalityNotSet := by
  have h := c6_gpu_unset_count_falls_back
    ⟨[InputExpr.columnVar 0], 1, ⟨2, true⟩⟩ 4 (by norm_num)
  simpa [USIZE] using h

/-- Claim C7: on the CPU path with a successful (zero) return code, a still
negative output row count out parameter fails with the output cardinality
error, and a nonnegative reported count becomes the result entry count
exactly (the allocated count only sizes the storage). -/
theorem c7_cpu_reported_count_is_authoritative
    (u : TableFunctionExecutionUnit) (ec : Nat) (fn : CompiledFn)
    (hnonzero : u.output_buffer_multiplier.storage ≠ 0)
    (hret : fn.retCode = 0) :
    (fn.outRowCount < 0 →
      (launchCpuCode u ec fn).2 = .error .OutputCardinalityNotSet) ∧
    (0 ≤ fn.outRowCount →
      (launchCpuCode u ec fn).2 =
        .ok ⟨fn.outRowCount.toNat,
             u.output_buffer_multiplier.storage * ec % USIZE⟩) := by
  constructor
  · intro hneg
    simp [launchCpuCode, get_output_row_count, hnonzero, hret, hneg]
  · intro hpos
    simp [launchCpuCode, get_output_row_count, hnonzero, hret,
      not_lt.mpr hpos]

/-- Witness for C7, the documented example: 4 input rows, multiplier 2, a
function reporting 4 output rows; the result entry count is 4, not the
allocated 8. -/
theorem c7_cpu_reported_count_is_authoritative_witness :
    (launchCpuCode ⟨[InputExpr.columnVar 0], 1, ⟨2, true⟩⟩ 4 ⟨0, 4⟩).2 =
      .ok ⟨4, 8⟩ ∧ (4 : Nat) ≠ 8 := by
  have h := (c7_cpu_reported_count_is_authoritative
    ⟨[InputExpr.columnVar 0], 1, ⟨2, true⟩⟩ 4 ⟨0, 4⟩ (by norm_num) rfl).2
    (by norm_num)
  refine ⟨?_, by norm_num⟩
  simpa [USIZE] using h

/-- Claim C4: when the inputs (all inside the documented data model, so no
earlier literal failure preempts the loop) contain two column references
whose fetched element counts differ, the invocation aborts with the
inconsistent input cardinality check, and the empty event trace shows that
this happens before any output storage allocation and before any launch. -/
theorem c4_inconsistent_input_cardinality (u : TableFunctionExecutionUnit)
    (fetch : Nat → Nat) (device_type : ExecutorDeviceType) (fn : CompiledFn)
    (kernelOut : Option Int) (gpuSlot : List Nat) (c₁ c₂ : Nat)
    (hspec : ∀ e ∈ u.input_exprs, isSpecInput e = true)
    (h1 : InputExpr.columnVar c₁ ∈ u.input_exprs)
    (h2 : InputExpr.columnVar c₂ ∈ u.input_exprs)
    (hne : fetch c₁ ≠ fetch c₂) :
    execute u fetch device_type fn kernelOut gpuSlot =
      ([], .error .InconsistentInputCardinality) := by
  rcases marshal_spec_shape fetch device_type gpuSlot u.input_exprs ([], -1)
    hspec with ⟨⟨bufs, ec⟩, hok⟩ | herr
  · exfalso
    have e1 := marshal_col_count fetch device_type gpuSlot u.input_exprs
      ([], -1) bufs ec hok c₁ h1
    have e2 := marshal_col_count fetch device_type gpuSlot u.input_exprs
      ([], -1) bufs ec hok c₂ h2
    exact hne (by exact_mod_cast e1.trans e2.symm)
  · simp [execute, herr]

/-- Witness for C4: two column inputs fetching 4 and 5 elements abort with
the cardinality check and an empty event trace. -/
theorem c4_inconsistent_input_cardinality_witness :
    execute ⟨[InputExpr.columnVar 0, InputExpr.columnVar 1], 1, ⟨2, true⟩⟩
        (fun c => 4 + c) .CPU ⟨0, 4⟩ none [] =
      ([], .error .InconsistentInputCardinality) :=
  c4_inconsistent_input_cardinality
    ⟨[InputExpr.columnVar 0, InputExpr.columnVar 1], 1, ⟨2, true⟩⟩
    (fun c => 4 + c) .CPU ⟨0, 4⟩ none [] 0 1 (by decide) (by simp)
    (by simp) (by norm_num)

/-- Claim C8: when the inputs (all inside the documented data model) contain
no column reference, the shared element count is never established and the
invocation aborts with the no column inputs check; the empty event trace
shows this happens before any launch (and before any output allocation). -/
theorem c8_no_column_inputs (u : TableFunctionExecutionUnit)
    (fetch : Nat → Nat) (device_type : ExecutorDeviceType) (fn : CompiledFn)
    (kernelOut : Option Int) (gpuSlot : List Nat)
    (hspec : ∀ e ∈ u.input_exprs, isSpecInput e = true)
    (hnocol : ∀ e ∈ u.input_exprs, isColumnRef e = false) :
    execute u fetch device_type fn kernelOut gpuSlot =
      ([], .error .NoColumnInputs) := by
  obtain ⟨bufs, hok, hlen⟩ := marshal_no_col fetch device_type gpuSlot
    u.input_exprs ([], -1) hspec hnocol
  simp only [List.nil_append] at hok
  simp [execute, hok, hlen]

/-- Witness for C8: a single supported 32 bit integer constant input aborts
with the no column inputs check and an empty event trace. -/
theorem c8_no_column_inputs_witness :
    execute ⟨[InputExpr.constant ⟨SQLTypeClass.integer, 32, 7⟩], 1,
        ⟨2, true⟩⟩ (fun _ => 4) .CPU ⟨0, 4⟩ none [] =
      ([], .error .NoColumnInputs) :=
  c8_no_column_inputs
    ⟨[InputExpr.constant ⟨SQLTypeClass.integer, 32, 7⟩], 1, ⟨2, true⟩⟩
    (fun _ => 4) .CPU ⟨0, 4⟩ none [] (by decide) (by decide)

/-- Claim C10: an input expression that is neither a column reference nor a
constant gets no buffer pushed by the marshaling step, so when the loop
itself completes the invocation aborts through the defensive buffer count
invariant (the internal CHECK that the marshaled buffer count equals the
input expression count), not through the unsupported literal error nor any
other user facing error of the taxonomy. -/
theorem c10_unknown_expr_trips_buffer_count_invariant
    (u : TableFunctionExecutionUnit) (fetch : Nat → Nat)
    (device_type : ExecutorDeviceType) (fn : CompiledFn)
    (kernelOut : Option Int) (gpuSlot : List Nat) (st : List Buf × Int)
    (bufs : List Buf) (ec : Int)
    (hother : InputExpr.other ∈ u.input_exprs)
    (hok : marshalLoop fetch device_type gpuSlot ([], -1) u.input_exprs =
      .ok (bufs, ec)) :
    marshalStep fetch device_type gpuSlot st .other = .ok st ∧
    execute u fetch device_type fn kernelOut gpuSlot =
      ([], .error .InternalBufferCountMismatch) := by
  refine ⟨rfl, ?_⟩
  have hlen := marshal_length fetch device_type gpuSlot u.input_exprs
    ([], -1) bufs ec hok
  have hlt := countP_lt_of_other u.input_exprs hother
  simp only [List.length_nil, Nat.zero_add] at hlen
  simp only [execute, hok]
  rw [if_neg (by omega)]

/-- Witness for C10: inputs of one column reference and one unrecognized
expression marshal to a single buffer and abort with the internal buffer
count check. -/
theorem c10_unknown_expr_trips_buffer_count_invariant_witness :
    marshalStep (fun _ => 3) .CPU [] ([], -1) .other = .ok ([], -1) ∧
    execute ⟨[InputExpr.columnVar 0, InputExpr.other], 1, ⟨2, true⟩⟩
        (fun _ => 3) .CPU ⟨0, 4⟩ none [] =
      ([], .error .InternalBufferCountMismatch) :=
  c10_unknown_expr_trips_buffer_count_invariant
    ⟨[InputExpr.columnVar 0, InputExpr.other], 1, ⟨2, true⟩⟩ (fun _ => 3)
    .CPU ⟨0, 4⟩ none [] ([], -1) [Buf.column 3] 3 (by simp) rfl

/-- A successful CPU launch sets the result entry count to exactly the row
count the compiled function reported (no clamping). -/
theorem launchCpuCode_ok_shape (u : TableFunctionExecutionUnit) (ec : Nat)
    (fn : CompiledFn) (evs : List Event) (r : ResultSet)
    (h : launchCpuCode u ec fn = (evs, .ok r)) :
    r.entryCount = fn.outRowCount.toNat := by
  cases hg : get_output_row_count u ec with
  | error e =>
    simp only [launchCpuCode, hg] at h
    exact absurd h (by simp)
  | ok A =>
    simp only [launchCpuCode, hg] at h
    by_cases hret : fn.retCode ≠ 0
    · rw [if_pos hret] at h
      exact absurd h (by simp)
    · rw [if_neg hret] at h
      by_cases hneg : fn.outRowCount < 0
      · rw [if_pos hneg] at h
        exact absurd h (by simp)
      · rw [if_neg hneg] at h
        simp only [Prod.mk.injEq, Except.ok.injEq] at h
        rw [← h.2]

/-- A successful GPU launch sets the result entry count to the device value
read back when that is nonnegative, and otherwise to the allocated count. -/
theorem launchGpuCode_ok_shape (u : TableFunctionExecutionUnit) (ec : Nat)
    (kernelOut : Option Int) (evs : List Event) (r : ResultSet)
    (h : launchGpuCode u ec kernelOut = (evs, .ok r)) :
    r.entryCount =
      (if kernelOut.getD (-1) < 0 then ((r.allocatedRows : Nat) : Int)
       else kernelOut.getD (-1)).toNat := by
  cases hg : get_output_row_count u ec with
  | error e =>
    simp only [launchGpuCode, hg] at h
    exact absurd h (by simp)
  | ok A =>
    simp only [launchGpuCode, hg] at h
    simp only [Prod.mk.injEq, Except.ok.injEq] at h
    rw [← h.2]

/-- A result-returning invocation went through exactly one of the two
launchers, with the same trace and result. -/
theorem execute_ok_cases (u : TableFunctionExecutionUnit)
    (fetch : Nat → Nat) (device_type : ExecutorDeviceType) (fn : CompiledFn)
    (kernelOut : Option Int) (gpuSlot : List Nat) (evs : List Event)
    (r : ResultSet)
    (h : execute u fetch device_type fn kernelOut gpuSlot = (evs, .ok r)) :
    (∃ n, launchCpuCode u n fn = (evs, .ok r)) ∨
      (∃ n, launchGpuCode u n kernelOut = (evs, .ok r)) := by
  cases hm : marshalLoop fetch device_type gpuSlot ([], -1) u.input_exprs with
  | error e =>
    simp only [execute, hm] at h
    exact absurd h (by simp)
  | ok st =>
    rcases st with ⟨bufs, element_count⟩
    simp only [execute, hm] at h
    by_cases hlen : bufs.length = u.input_exprs.length
    · rw [if_pos hlen] at h
      by_cases hneg : element_count < 0
      · rw [if_pos hneg] at h
        exact absurd h (by simp)
      · rw [if_neg hneg] at h
        cases device_type with
        | CPU => exact Or.inl ⟨element_count.toNat, h⟩
        | GPU => exact Or.inr ⟨element_count.toNat, h⟩
    · rw [if_neg hlen] at h
      exact absurd h (by simp)

/-- Claim C2, amended: the code never clamps, so the bound holds exactly
when the count the compiled function reported (CPU) or the device value
read back (GPU; negative means the fallback to the allocated count) does
not exceed the allocated row count: under that contract the row count of
every returned result set is at most the allocated output row count. -/
theorem c2_result_rows_bounded_when_reported_within_allocation
    (u : TableFunctionExecutionUnit) (fetch : Nat → Nat)
    (device_type : ExecutorDeviceType) (fn : CompiledFn)
    (kernelOut : Option Int) (gpuSlot : List Nat) (evs : List Event)
    (r : ResultSet)
    (hr : execute u fetch device_type fn kernelOut gpuSlot = (evs, .ok r))
    (hcpu : fn.outRowCount ≤ (r.allocatedRows : Int))
    (hgpu : kernelOut.getD (-1) ≤ (r.allocatedRows : Int)) :
    r.entryCount ≤ r.allocatedRows := by
  rcases execute_ok_cases u fetch device_type fn kernelOut gpuSlot evs r hr
    with ⟨n, hcall⟩ | ⟨n, hcall⟩
  · rw [launchCpuCode_ok_shape u n fn evs r hcall]
    exact Int.toNat_le.mpr hcpu
  · rw [launchGpuCode_ok_shape u n kernelOut evs r hcall]
    split
    · simp
    · exact Int.toNat_le.mpr hgpu

/-- Witness for the amended C2: a CPU execution reporting 4 rows of 8
allocated ends with an entry count within the allocation. -/
theorem c2_result_rows_bounded_witness :
    (execute ⟨[InputExpr.columnVar 0], 1, ⟨2, true⟩⟩ (fun _ => 4) .CPU
        ⟨0, 4⟩ none []).2 = .ok ⟨4, 8⟩ ∧ (4 : Nat) ≤ 8 :=
  ⟨rfl,
    c2_result_rows_bounded_when_reported_within_allocation
      ⟨[InputExpr.columnVar 0], 1, ⟨2, true⟩⟩ (fun _ => 4) .CPU ⟨0, 4⟩ none
      [] [Event.allocOutput 8, Event.launch .CPU] ⟨4, 8⟩ rfl (by norm_num)
      (by norm_num)⟩

/-- Counterexample to C2 as stated: the system trusts the compiled function
and performs no clamping, so a CPU function that returns success and
reports 9 output rows when only 8 were allocated yields a returned result
set whose row count 9 exceeds the allocated count 8. -/
theorem c2_counterexample_unclamped_overflow :
    (execute ⟨[InputExpr.columnVar 0], 1, ⟨2, true⟩⟩ (fun _ => 4) .CPU
        ⟨0, 9⟩ none []).2 = .ok ⟨9, 8⟩ ∧ ¬ ((9 : Nat) ≤ 8) :=
  ⟨rfl, by norm_num⟩

end TableFunctionExec
